import Mathlib

/-!
# Verification of the webdevtracker frontend aggregation and mutation logic

Shallow embedding of the client-side logic of the learning-progress tracker
(`src/unnamed/part_000`, `src/unnamed/part_001`, `src/frontend/src/App_new.js`):
course filtering and phase grouping, the calendar month grid, the course
progress state machine, daily-log submission validation, mutation error
handling, and the (backend-computed, spec-modelled) streak.

All three theme variants of the view layer contain byte-identical copies of
the functions embedded here; line references below are to `src/unnamed/part_001`.
-/

set_option maxHeartbeats 1000000

namespace WebDevTracker

/-- Course status, stored as the strings "Not Started" / "In Progress" /
"Completed" in the source. -/
inductive Status where
  | notStarted
  | inProgress
  | completed
deriving DecidableEq, Repr

/-- Course priority, stored as the strings "MUST" / "Optional" in the source. -/
inductive CoursePriority where
  | must
  | optional
deriving DecidableEq, Repr

/-- The fields of a course record that the embedded frontend logic reads
(`phase` is a JS number, kept as ℤ; `progress` 0..100). -/
structure Course where
  id : String
  title : String
  phase : ℤ
  phase_title : String
  status : Status
  progress : ℤ
  priority : CoursePriority
deriving DecidableEq, Repr

/-- The fields of a daily-log record read by the calendar lookup
(`l.date` is a `YYYY-MM-DD` string). -/
structure DailyLog where
  id : String
  date : String
deriving DecidableEq, Repr

/-- The fields of a planned-session record read by the calendar lookup. -/
structure PlannedSession where
  id : String
  course_id : String
  planned_date : String
deriving DecidableEq, Repr

/-! ## Course progress mutations (part_001 lines 77-95, 1082-1085) -/

/-- A progress-update request as issued by `updateCourseProgress(courseId,
progress, status)`: PATCH `/api/courses/{id}/progress?progress=..&status=..`. -/
structure ProgressRequest where
  courseId : String
  progress : ℤ
  status : Status
deriving DecidableEq, Repr

/-- `handleStartCourse` (lines 87-91): issues `updateCourseProgress(course.id,
5, 'In Progress')` only when `course.status === 'Not Started'`; otherwise no
request at all. -/
def handleStartCourse (c : Course) : Option ProgressRequest :=
  if c.status = Status.notStarted then
    some ⟨c.id, 5, Status.inProgress⟩
  else
    none

/-- `handleCompleteCourse` (lines 93-95): always issues
`updateCourseProgress(course.id, 100, 'Completed')`. -/
def handleCompleteCourse (c : Course) : Option ProgressRequest :=
  some ⟨c.id, 100, Status.completed⟩

/-- `CourseDetailModal.handleUpdate` (lines 1082-1085): derives the status
from the slider value alone:
`progress >= 100 ? 'Completed' : progress > 0 ? 'In Progress' : 'Not Started'`. -/
def deriveStatus (progress : ℤ) : Status :=
  if progress ≥ 100 then Status.completed
  else if progress > 0 then Status.inProgress
  else Status.notStarted

/-- `CourseDetailModal.handleUpdate` calls `onUpdate(progress, status)`, which
the app binds to `updateCourseProgress(course.id, progress, status)`. The prior
course status is never read. -/
def handleUpdate (c : Course) (progress : ℤ) : ProgressRequest :=
  ⟨c.id, progress, deriveStatus progress⟩

/-! ## Daily log submission (part_001 lines 548-577) -/

/-- One row of the daily-tracker form: `{course_id, course_title, time_spent,
progress_notes}`; an unselected course has `course_id === ''` (falsy). -/
structure EntryForm where
  course_id : String
  course_title : String
  time_spent : ℤ
  progress_notes : String
deriving DecidableEq, Repr

/-- The JSON body POSTed to `/api/logs`. -/
structure LogRequest where
  date : String
  courses : List EntryForm
  notes : String
  mood : Option ℤ
deriving DecidableEq, Repr

/-- Result of a submit attempt: either a client-side rejection (an `alert`
then `return`, before any network call) or the request that is POSTed. -/
inductive SubmitOutcome where
  | rejected (message : String)
  | posted (req : LogRequest)
deriving DecidableEq, Repr

/-- The filter in `handleSubmit` line 554:
`selectedCourses.filter(c => c.course_id && c.time_spent > 0)`
(JS truthiness of a string is non-emptiness). -/
def validEntries (entries : List EntryForm) : List EntryForm :=
  entries.filter (fun c => c.course_id ≠ "" && decide (0 < c.time_spent))

/-- `DailyTracker.handleSubmit` (lines 548-577): rejects an empty entry list,
then rejects when no entry has a course and positive time, otherwise POSTs
exactly the valid entries with the date, notes and mood. -/
def handleSubmit (entries : List EntryForm) (date notes : String)
    (mood : Option ℤ) : SubmitOutcome :=
  if entries.isEmpty then
    SubmitOutcome.rejected "ADD AT LEAST ONE COURSE"
  else if (validEntries entries).isEmpty then
    SubmitOutcome.rejected "SELECT COURSES AND ADD TIME"
  else
    SubmitOutcome.posted ⟨date, validEntries entries, notes, mood⟩

/-! ## Mutation error handling (part_001 lines 77-85, 560-576, 757-775, 777-786)

Each mutation handler is modelled by the observable effects of one run, as a
function of whether the awaited network call succeeds or throws. Local state
only ever changes through the re-fetches (`setCourses` etc. from fresh server
data) and form resets listed here; an empty `refetches` list and
`formReset = false` mean the locally held state is untouched. -/

/-- Whether the awaited axios call succeeds or throws. -/
inductive Outcome where
  | ok
  | fail
deriving DecidableEq, Repr

/-- Observable effects of one mutation handler run: `alerts` are the blocking
`window.alert` notifications shown, `consoleError` whether `console.error`
fired, `refetches` the state-refreshing fetches triggered, `formReset`
whether the handler cleared its form state. -/
structure MutationRun where
  alerts : List String
  consoleError : Bool
  refetches : List String
  formReset : Bool
deriving DecidableEq, Repr

/-- `updateCourseProgress` (lines 77-85): on success re-fetches courses and
analytics; on failure only `console.error`, no alert, no state change. -/
def updateCourseProgressRun : Outcome → MutationRun
  | Outcome.ok => ⟨[], false, ["courses", "analytics"], false⟩
  | Outcome.fail => ⟨[], true, [], false⟩

/-- The network phase of `DailyTracker.handleSubmit` (lines 560-576): on
success resets the form, triggers `onLogAdded` (re-fetching logs, courses,
analytics) and alerts "LOG SAVED!"; on failure `console.error` plus the alert
"ERROR SAVING LOG", no state change. -/
def dailyLogSubmitRun : Outcome → MutationRun
  | Outcome.ok => ⟨["LOG SAVED!"], false, ["dailyLogs", "courses", "analytics"], true⟩
  | Outcome.fail => ⟨["ERROR SAVING LOG"], true, [], false⟩

/-- `handleAddSession` (lines 757-775), after its client-side validation: on
success resets the modal form, triggers `onSessionAdded` (re-fetching planned
sessions) and alerts "SESSION PLANNED!"; on failure `console.error` plus the
alert "ERROR PLANNING SESSION", no state change. -/
def addSessionRun : Outcome → MutationRun
  | Outcome.ok => ⟨["SESSION PLANNED!"], false, ["plannedSessions"], true⟩
  | Outcome.fail => ⟨["ERROR PLANNING SESSION"], true, [], false⟩

/-- `handleDeleteSession` (lines 777-786): returns immediately if the
`window.confirm` is declined; otherwise on success triggers
`onSessionDeleted` (re-fetching planned sessions); on failure only
`console.error`, no alert, no state change. -/
def deleteSessionRun (confirmed : Bool) : Outcome → MutationRun
  | o =>
    if confirmed then
      match o with
      | Outcome.ok => ⟨[], false, ["plannedSessions"], false⟩
      | Outcome.fail => ⟨[], true, [], false⟩
    else ⟨[], false, [], false⟩

/-- The locally held state is untouched by a run: nothing is re-fetched and
no form state is written. -/
def stateUnchanged (r : MutationRun) : Prop :=
  r.refetches = [] ∧ r.formReset = false

/-! ## Course selection dropdowns (part_001 lines 171-181, 961-963) -/

/-- The `courses` prop handed to `DailyTracker` (line 173):
`courses.filter(c => c.status !== 'Completed')`; the log form's course
`<select>` offers exactly this list. -/
def dailyTrackerCourses (cs : List Course) : List Course :=
  cs.filter (fun c => c.status ≠ Status.completed)

/-- The calendar add-session modal's course `<select>` (lines 961-963):
`courses.filter(c => c.status !== 'Completed')`. -/
def calendarCourseOptions (cs : List Course) : List Course :=
  cs.filter (fun c => c.status ≠ Status.completed)

/-! ## Course filtering (part_001 lines 97-104, 415-420) -/

/-- The three filter criteria.  `phaseSel` mirrors the JS `selectedPhase`
(`null` ↦ `none`); `statusFilter` and `priorityFilter` mirror the string
filters, with the `'all'` sentinel mapped to `none`. -/
structure Filters where
  phaseSel : Option ℤ
  statusFilter : Option Status
  priorityFilter : Option CoursePriority
deriving DecidableEq, Repr

/-- The phase check of line 99, `selectedPhase && course.phase !== selectedPhase`:
JS truthiness of a number is `≠ 0`. -/
def phaseMismatch (f : Filters) (c : Course) : Bool :=
  match f.phaseSel with
  | none => false
  | some p => decide (p ≠ 0) && decide (c.phase ≠ p)

/-- The status check of line 100,
`statusFilter !== 'all' && course.status !== statusFilter`. -/
def statusMismatch (f : Filters) (c : Course) : Bool :=
  match f.statusFilter with
  | none => false
  | some s => decide (c.status ≠ s)

/-- The priority check of line 101,
`priorityFilter !== 'all' && course.priority !== priorityFilter`. -/
def priorityMismatch (f : Filters) (c : Course) : Bool :=
  match f.priorityFilter with
  | none => false
  | some q => decide (c.priority ≠ q)

/-- The early-return predicate inside `getFilteredCourses` (lines 98-103):
phase, then status, then priority. -/
def coursePred (f : Filters) (c : Course) : Bool :=
  if phaseMismatch f c then false
  else if statusMismatch f c then false
  else if priorityMismatch f c then false
  else true

/-- `getFilteredCourses` (lines 97-104): `courses.filter(...)`. -/
def getFilteredCourses (cs : List Course) (f : Filters) : List Course :=
  cs.filter (coursePred f)

/-- The separately written predicate of the per-phase filter in `CoursesView`
(lines 415-420): the same three checks, in the order status, priority, phase. -/
def phaseViewPred (f : Filters) (c : Course) : Bool :=
  if statusMismatch f c then false
  else if priorityMismatch f c then false
  else if phaseMismatch f c then false
  else true

/-- The spec's description of the filter (§4.2), written from the spec's words
for comparison with `coursePred`: a course passes iff it satisfies every
active (non-"all") criterion. -/
def satisfiesActiveCriteria (f : Filters) (c : Course) : Bool :=
  (match f.phaseSel with
    | none => true
    | some p => decide (c.phase = p))
  && (match f.statusFilter with
    | none => true
    | some s => decide (c.status = s))
  && (match f.priorityFilter with
    | none => true
    | some q => decide (c.priority = q))

/-! ## Phase grouping (part_001 lines 106-118) -/

/-- The value stored under one phase key: `{title, courses}`. -/
structure PhaseGroup where
  title : String
  courses : List Course
deriving DecidableEq, Repr

/-- One step of the `forEach` body in `getCoursesByPhase` (lines 108-116): if
the phase key is absent, create `{title: course.phase_title, courses: []}`,
then push the course.  The accumulator models the JS object as a partial map
from phase number to group. -/
def insertCourse (m : ℤ → Option PhaseGroup) (c : Course) : ℤ → Option PhaseGroup :=
  fun p =>
    if p = c.phase then
      match m c.phase with
      | none => some ⟨c.phase_title, [c]⟩
      | some g => some ⟨g.title, g.courses ++ [c]⟩
    else m p

/-- `getCoursesByPhase` (lines 106-118): fold the catalog left to right into
the phase map, starting from the empty object. -/
def getCoursesByPhase (cs : List Course) : ℤ → Option PhaseGroup :=
  cs.foldl insertCourse (fun _ => none)

/-! ## Calendar month grid (part_001 lines 734-749, 837-861)

`getDaysInMonth` reads `new Date(year, month + 1, 0).getDate()` (the number
of days in the zero-based `month`) and `new Date(year, month, 1).getDay()`
(the weekday of day 1, 0 = Sunday).  The JS `Date` semantics on Gregorian
calendar dates is embedded arithmetically below, for years ≥ 1. -/

/-- Gregorian leap-year rule, as implemented by JS `Date` month rollover. -/
def isLeapYear (y : ℕ) : Bool :=
  decide ((y % 4 = 0 ∧ ¬(y % 100 = 0)) ∨ y % 400 = 0)

/-- Number of days of zero-based month `m` of year `y`
(`new Date(y, m + 1, 0).getDate()`). -/
def daysInMonth (y : ℕ) (m : ℕ) : ℕ :=
  if m = 1 then (if isLeapYear y then 29 else 28)
  else if m = 3 ∨ m = 5 ∨ m = 8 ∨ m = 10 then 30
  else 31

/-- Days in all years before year `y` in the proleptic Gregorian calendar. -/
def daysBeforeYear (y : ℕ) : ℕ :=
  365 * (y - 1) + (y - 1) / 4 - (y - 1) / 100 + (y - 1) / 400

/-- Days in the months of year `y` before zero-based month `m`. -/
def daysBeforeMonth (y : ℕ) : ℕ → ℕ
  | 0 => 0
  | m + 1 => daysBeforeMonth y m + daysInMonth y m

/-- Weekday (0 = Sunday) of day 1 of zero-based month `m` of year `y`
(`new Date(y, m, 1).getDay()`): day 1 of year 1 of the proleptic Gregorian
calendar is a Monday, so the day ordinal mod 7 with Sunday = 0. -/
def startingDayOfWeek (y m : ℕ) : ℕ :=
  (daysBeforeYear y + daysBeforeMonth y m + 1) % 7

/-- `getDaysInMonth` (lines 734-743): `{ daysInMonth, startingDayOfWeek }`. -/
def getDaysInMonth (y m : ℕ) : ℕ × ℕ :=
  (daysInMonth y m, startingDayOfWeek y m)

/-- `String(n).padStart(2, '0')` for the month and day components. -/
def pad2 (n : ℕ) : String :=
  if n < 10 then "0" ++ toString n else toString n

/-- The day-cell key of line 843:
`year + '-' + pad(month + 1) + '-' + pad(day)` (month zero-based). -/
def dateStr (y m day : ℕ) : String :=
  toString y ++ "-" ++ pad2 (m + 1) ++ "-" ++ pad2 day

/-- `getActivityForDate` (lines 745-749): the first daily log whose `date`
equals the date string, and all planned sessions whose `planned_date` equals
it. -/
def getActivityForDate (dailyLogs : List DailyLog)
    (plannedSessions : List PlannedSession) (ds : String) :
    Option DailyLog × List PlannedSession :=
  (dailyLogs.find? (fun l => decide (l.date = ds)),
    plannedSessions.filter (fun p => decide (p.planned_date = ds)))

/-- One rendered cell of the calendar grid: a leading blank, or a day cell
carrying its number, date key and activity. -/
inductive CalendarCell where
  | blank
  | day (day : ℕ) (dateKey : String) (log : Option DailyLog)
      (planned : List PlannedSession)
deriving DecidableEq, Repr

/-- The grid rendering of lines 837-861: `startingDayOfWeek` blank cells,
then one day cell per day `1..daysInMonth`, each with the activity looked up
by its date string.  No trailing blanks are rendered. -/
def calendarGrid (y m : ℕ) (dailyLogs : List DailyLog)
    (plannedSessions : List PlannedSession) : List CalendarCell :=
  List.replicate (startingDayOfWeek y m) CalendarCell.blank
    ++ (List.range (daysInMonth y m)).map (fun i =>
        CalendarCell.day (i + 1) (dateStr y m (i + 1))
          (getActivityForDate dailyLogs plannedSessions (dateStr y m (i + 1))).1
          (getActivityForDate dailyLogs plannedSessions (dateStr y m (i + 1))).2)

/-! ## Current streak (spec-modelled)

The `current_streak` field of the analytics summary is computed by the
backend; this repository's source only fetches it (`fetchAnalytics`,
part_001 lines 50-57).  The definitions below are therefore modelled from
the spec, with calendar dates as day numbers (one unit per calendar day). -/

/-- Modelled from the spec (§4.3): walk backward one calendar day at a time
from `d`, counting days with a logged entry and stopping at the first gap.
The fuel bounds the walk; `logs.card` suffices, as a consecutive run of
logged days cannot exceed the number of distinct logged dates. -/
def streakFrom (logs : Finset ℤ) : ℕ → ℤ → ℕ
  | 0, _ => 0
  | fuel + 1, d => if d ∈ logs then streakFrom logs fuel (d - 1) + 1 else 0

/-- Modelled from the spec (§3 `AnalyticsSummary`, §4.3 recommended rule):
the current streak counts consecutive logged days ending at the most recent
logged day, and is 0 when there are no logs or that most recent day is more
than one day before `today`. -/
def currentStreak (logs : Finset ℤ) (today : ℤ) : ℕ :=
  if h : logs.Nonempty then
    if today - logs.max' h ≤ 1 then streakFrom logs logs.card (logs.max' h)
    else 0
  else 0

end WebDevTracker

namespace WebDevTracker

/-! ## Theorems for the mutation state machine, submission and dropdowns -/

/-- C6: the start transition fires only from `NotStarted`, issuing
progress=5/InProgress; from any other status it issues no mutation at all;
the complete transition is valid from any state and issues
progress=100/Completed. -/
theorem start_complete_transitions (c : Course) :
    (c.status = Status.notStarted →
      handleStartCourse c = some ⟨c.id, 5, Status.inProgress⟩)
    ∧ (c.status ≠ Status.notStarted → handleStartCourse c = none)
    ∧ handleCompleteCourse c = some ⟨c.id, 100, Status.completed⟩ := by
  refine ⟨fun h => ?_, fun h => ?_, rfl⟩
  · simp [handleStartCourse, h]
  · simp [handleStartCourse, h]

/-- Witness for C6 at concrete courses in each status. -/
theorem start_complete_transitions_witness :
    (Course.mk "c1" "T" 1 "P" Status.notStarted 0 CoursePriority.must).status
        = Status.notStarted
    ∧ handleStartCourse ⟨"c1", "T", 1, "P", Status.notStarted, 0, CoursePriority.must⟩
        = some ⟨"c1", 5, Status.inProgress⟩
    ∧ handleStartCourse ⟨"c2", "T", 1, "P", Status.inProgress, 40, CoursePriority.must⟩
        = none := by
  refine ⟨rfl, ?_, ?_⟩
  · exact (start_complete_transitions
      ⟨"c1", "T", 1, "P", Status.notStarted, 0, CoursePriority.must⟩).1 rfl
  · exact (start_complete_transitions
      ⟨"c2", "T", 1, "P", Status.inProgress, 40, CoursePriority.must⟩).2.1 (by decide)

/-- C7: the manual progress update derives Completed when progress ≥ 100,
InProgress when 0 < progress < 100, NotStarted when progress = 0; a manual
update to 100 yields a Completed request whatever the course's prior status. -/
theorem manual_update_derived_status (c : Course) (p : ℤ) :
    (0 ≤ p → p ≤ 100 →
      (100 ≤ p → deriveStatus p = Status.completed)
      ∧ (0 < p → p < 100 → deriveStatus p = Status.inProgress)
      ∧ (p = 0 → deriveStatus p = Status.notStarted))
    ∧ handleUpdate c 100 = ⟨c.id, 100, Status.completed⟩ := by
  constructor
  · intro _ _
    refine ⟨fun h => ?_, fun h1 h2 => ?_, fun h => ?_⟩
    · simp [deriveStatus, h]
    · simp [deriveStatus, h1, not_le.mpr h2]
    · simp [deriveStatus, h]
  · rfl

/-- Witness for C7 at progress values 100, 40 and 0 on a Completed course. -/
theorem manual_update_derived_status_witness :
    deriveStatus 100 = Status.completed
    ∧ deriveStatus 40 = Status.inProgress
    ∧ deriveStatus 0 = Status.notStarted
    ∧ handleUpdate ⟨"c9", "T", 2, "P", Status.completed, 100, CoursePriority.optional⟩ 100
        = ⟨"c9", 100, Status.completed⟩ := by
  have h100 := manual_update_derived_status
    ⟨"c9", "T", 2, "P", Status.completed, 100, CoursePriority.optional⟩ 100
  have h40 := manual_update_derived_status
    ⟨"c9", "T", 2, "P", Status.completed, 100, CoursePriority.optional⟩ 40
  have h0 := manual_update_derived_status
    ⟨"c9", "T", 2, "P", Status.completed, 100, CoursePriority.optional⟩ 0
  exact ⟨(h100.1 (by decide) (by decide)).1 (by decide),
    (h40.1 (by decide) (by decide)).2.1 (by decide) (by decide),
    (h0.1 (by decide) (by decide)).2.2 rfl,
    h100.2⟩

/-- C8: a submission is rejected (alert, no network call) exactly when the
entry list is empty or no entry has both a selected course and positive time;
otherwise the POSTed request carries exactly the valid entries with the date,
notes and mood.  The two concrete examples from the spec are included. -/
theorem daily_log_submit_correct (entries : List EntryForm) (d n : String)
    (mood : Option ℤ) :
    ((∃ msg, handleSubmit entries d n mood = SubmitOutcome.rejected msg) ↔
      entries = [] ∨ validEntries entries = [])
    ∧ (∀ req, handleSubmit entries d n mood = SubmitOutcome.posted req ↔
        (entries ≠ [] ∧ validEntries entries ≠ []
          ∧ req = ⟨d, validEntries entries, n, mood⟩))
    ∧ handleSubmit [⟨"c1", "T1", 30, ""⟩, ⟨"", "", 0, ""⟩] d n mood
        = SubmitOutcome.posted ⟨d, [⟨"c1", "T1", 30, ""⟩], n, mood⟩
    ∧ handleSubmit [⟨"c1", "T1", 0, ""⟩] d n mood
        = SubmitOutcome.rejected "SELECT COURSES AND ADD TIME" := by
  refine ⟨?_, fun req => ?_, ?_, ?_⟩
  · constructor
    · rintro ⟨msg, hmsg⟩
      by_cases he : entries = []
      · exact Or.inl he
      · by_cases hv : validEntries entries = []
        · exact Or.inr hv
        · simp [handleSubmit, List.isEmpty_iff, he, hv] at hmsg
    · rintro (he | hv)
      · exact ⟨"ADD AT LEAST ONE COURSE", by simp [handleSubmit, he]⟩
      · by_cases he : entries = []
        · exact ⟨"ADD AT LEAST ONE COURSE", by simp [handleSubmit, he]⟩
        · exact ⟨"SELECT COURSES AND ADD TIME",
            by simp [handleSubmit, List.isEmpty_iff, he, hv]⟩
  · constructor
    · intro hreq
      by_cases he : entries = []
      · simp [handleSubmit, he] at hreq
      · by_cases hv : validEntries entries = []
        · simp [handleSubmit, List.isEmpty_iff, he, hv] at hreq
        · refine ⟨he, hv, ?_⟩
          simp [handleSubmit, List.isEmpty_iff, he, hv] at hreq
          exact hreq.symm
    · rintro ⟨he, hv, rfl⟩
      simp [handleSubmit, List.isEmpty_iff, he, hv]
  · rfl
  · rfl

/-- C10: both the daily-tracker log form's course list and the calendar's
plan-session dropdown contain exactly the non-Completed courses of the
catalog, so no Completed course can be chosen in either place. -/
theorem course_dropdowns_exclude_completed (cs : List Course) (c : Course) :
    (c ∈ dailyTrackerCourses cs ↔ c ∈ cs ∧ c.status ≠ Status.completed)
    ∧ (c ∈ calendarCourseOptions cs ↔ c ∈ cs ∧ c.status ≠ Status.completed) := by
  constructor
  · simp [dailyTrackerCourses]
  · simp [calendarCourseOptions]

/-- C9 counterexample: the progress-update and session-delete mutations show
no blocking notification on a backend failure (their catch blocks only call
`console.error`), refuting the claim that every mutation failure is surfaced
to the user via a blocking notification. -/
theorem mutation_failure_alert_counterexample :
    (updateCourseProgressRun Outcome.fail).alerts = []
    ∧ (deleteSessionRun true Outcome.fail).alerts = [] := by
  exact ⟨rfl, rfl⟩

/-! ### Filtering and grouping lemmas -/

theorem phaseMismatch_not (f : Filters) (c : Course) (h : f.phaseSel ≠ some 0) :
    (!phaseMismatch f c) = (match f.phaseSel with
      | none => true
      | some p => decide (c.phase = p)) := by
  rcases hp : f.phaseSel with _ | p
  · simp [phaseMismatch, hp]
  · have hp0 : p ≠ 0 := by
      rintro rfl
      exact h hp
    by_cases hc : c.phase = p <;> simp [phaseMismatch, hp, hp0, hc]

theorem statusMismatch_not (f : Filters) (c : Course) :
    (!statusMismatch f c) = (match f.statusFilter with
      | none => true
      | some s => decide (c.status = s)) := by
  rcases hs : f.statusFilter with _ | s
  · simp [statusMismatch, hs]
  · by_cases hc : c.status = s <;> simp [statusMismatch, hs, hc]

theorem priorityMismatch_not (f : Filters) (c : Course) :
    (!priorityMismatch f c) = (match f.priorityFilter with
      | none => true
      | some q => decide (c.priority = q)) := by
  rcases hq : f.priorityFilter with _ | q
  · simp [priorityMismatch, hq]
  · by_cases hc : c.priority = q <;> simp [priorityMismatch, hq, hc]

theorem coursePred_and_form (f : Filters) (c : Course) :
    coursePred f c
      = ((!phaseMismatch f c && !statusMismatch f c) && !priorityMismatch f c) := by
  unfold coursePred
  cases hA : phaseMismatch f c <;> cases hB : statusMismatch f c <;>
    cases hC : priorityMismatch f c <;> simp

theorem phaseViewPred_eq_coursePred (f : Filters) (c : Course) :
    phaseViewPred f c = coursePred f c := by
  unfold coursePred phaseViewPred
  cases hA : phaseMismatch f c <;> cases hB : statusMismatch f c <;>
    cases hC : priorityMismatch f c <;> simp

theorem coursePred_eq_satisfies (f : Filters) (c : Course)
    (h : f.phaseSel ≠ some 0) :
    coursePred f c = satisfiesActiveCriteria f c := by
  rw [coursePred_and_form, phaseMismatch_not f c h, statusMismatch_not,
    priorityMismatch_not]
  rfl

theorem satisfiesActiveCriteria_iff (f : Filters) (c : Course) :
    satisfiesActiveCriteria f c = true ↔
      ((∀ p, f.phaseSel = some p → c.phase = p)
        ∧ (∀ s, f.statusFilter = some s → c.status = s)
        ∧ (∀ q, f.priorityFilter = some q → c.priority = q)) := by
  unfold satisfiesActiveCriteria
  rcases hp : f.phaseSel with _ | p <;> rcases hs : f.statusFilter with _ | s <;>
    rcases hq : f.priorityFilter with _ | q <;> simp [and_assoc]

theorem insertCourse_same (m : ℤ → Option PhaseGroup) (c : Course) :
    insertCourse m c c.phase
      = match m c.phase with
        | none => some ⟨c.phase_title, [c]⟩
        | some g => some ⟨g.title, g.courses ++ [c]⟩ := by
  simp [insertCourse]

theorem insertCourse_other (m : ℤ → Option PhaseGroup) (c : Course) (p : ℤ)
    (h : p ≠ c.phase) : insertCourse m c p = m p := by
  simp [insertCourse, h]

theorem foldl_insertCourse (cs : List Course) (m : ℤ → Option PhaseGroup)
    (p : ℤ) :
    (cs.foldl insertCourse m) p =
      match m p, cs.filter (fun c => decide (c.phase = p)) with
      | none, [] => none
      | none, c0 :: rest => some ⟨c0.phase_title, c0 :: rest⟩
      | some g, fl => some ⟨g.title, g.courses ++ fl⟩ := by
  induction cs generalizing m with
  | nil =>
      simp only [List.foldl_nil, List.filter_nil]
      cases hm : m p <;> simp
  | cons c cs ih =>
      rw [List.foldl_cons, ih, List.filter_cons]
      by_cases hc : c.phase = p
      · subst hc
        rw [insertCourse_same]
        cases hm : m c.phase <;> simp [hm, List.append_assoc]
      · rw [insertCourse_other m c p (fun h => hc h.symm)]
        simp [hc]

theorem getCoursesByPhase_eq (cs : List Course) (p : ℤ) :
    getCoursesByPhase cs p =
      match cs.filter (fun c => decide (c.phase = p)) with
      | [] => none
      | c0 :: rest => some ⟨c0.phase_title, c0 :: rest⟩ := by
  rw [getCoursesByPhase, foldl_insertCourse]
  cases hf : cs.filter (fun c => decide (c.phase = p)) <;> simp

/-- C3: the filtered-courses function returns exactly the subsequence of
courses satisfying every active (non-"all") criterion, in original order;
`phaseSel = none` (JS `null`) and the `'all'` sentinels exclude no course.
The hypothesis excludes the JS-truthiness artifact `phase = 0`, which the
data model (phases 1..8) never produces. -/
theorem filtered_courses_correct (cs : List Course) (f : Filters)
    (h : f.phaseSel ≠ some 0) :
    getFilteredCourses cs f = cs.filter (satisfiesActiveCriteria f)
    ∧ List.Sublist (getFilteredCourses cs f) cs
    ∧ ∀ c, c ∈ getFilteredCourses cs f ↔
        (c ∈ cs
          ∧ (∀ p, f.phaseSel = some p → c.phase = p)
          ∧ (∀ s, f.statusFilter = some s → c.status = s)
          ∧ (∀ q, f.priorityFilter = some q → c.priority = q)) := by
  refine ⟨List.filter_congr (fun c _ => coursePred_eq_satisfies f c h),
    List.filter_sublist _, fun c => ?_⟩
  rw [getFilteredCourses, List.mem_filter, coursePred_eq_satisfies f c h,
    satisfiesActiveCriteria_iff]

/-- Witness for C3: phase filter 1 with priority MUST on a two-course catalog
keeps exactly the matching course. -/
theorem filtered_courses_correct_witness :
    (⟨some 1, none, some CoursePriority.must⟩ : Filters).phaseSel ≠ some 0
    ∧ getFilteredCourses
        [⟨"a", "A", 1, "P1", Status.notStarted, 0, CoursePriority.must⟩,
          ⟨"b", "B", 2, "P2", Status.completed, 100, CoursePriority.optional⟩]
        ⟨some 1, none, some CoursePriority.must⟩
      = List.filter
          (satisfiesActiveCriteria ⟨some 1, none, some CoursePriority.must⟩)
          [⟨"a", "A", 1, "P1", Status.notStarted, 0, CoursePriority.must⟩,
            ⟨"b", "B", 2, "P2", Status.completed, 100, CoursePriority.optional⟩] :=
  ⟨by decide,
    (filtered_courses_correct
      [⟨"a", "A", 1, "P1", Status.notStarted, 0, CoursePriority.must⟩,
        ⟨"b", "B", 2, "P2", Status.completed, 100, CoursePriority.optional⟩]
      ⟨some 1, none, some CoursePriority.must⟩ (by decide)).1⟩

/-- C4: the flat filter predicate and the per-phase-group filter predicate
agree pointwise for every filter setting, and a course appears in the flat
filtered list iff it appears in the filtered list of its own phase group. -/
theorem flat_and_grouped_filters_agree (cs : List Course) (f : Filters)
    (c : Course) :
    phaseViewPred f c = coursePred f c
    ∧ (c ∈ getFilteredCourses cs f ↔
        ∃ g, getCoursesByPhase cs c.phase = some g
          ∧ c ∈ g.courses.filter (phaseViewPred f)) := by
  refine ⟨phaseViewPred_eq_coursePred f c, ?_⟩
  rw [getFilteredCourses, List.mem_filter]
  constructor
  · rintro ⟨hmem, hpred⟩
    have hcf : c ∈ cs.filter (fun x => decide (x.phase = c.phase)) :=
      List.mem_filter.mpr ⟨hmem, by simp⟩
    rcases hfl : cs.filter (fun x => decide (x.phase = c.phase)) with _ | ⟨c0, rest⟩
    · rw [hfl] at hcf
      cases hcf
    · refine ⟨⟨c0.phase_title, c0 :: rest⟩, ?_, ?_⟩
      · rw [getCoursesByPhase_eq, hfl]
      · refine List.mem_filter.mpr ⟨?_, ?_⟩
        · rw [hfl] at hcf
          exact hcf
        · rw [phaseViewPred_eq_coursePred]
          exact hpred
  · rintro ⟨g, hg, hcg⟩
    have hchar := getCoursesByPhase_eq cs c.phase
    rw [hg] at hchar
    rcases hfl : cs.filter (fun x => decide (x.phase = c.phase)) with _ | ⟨c0, rest⟩
    · rw [hfl] at hchar
      cases hchar
    · rw [hfl] at hchar
      have hgc : g.courses = c0 :: rest := by
        cases hchar
        rfl
      rcases List.mem_filter.mp hcg with ⟨hcm, hcp⟩
      rw [hgc, ← hfl] at hcm
      exact ⟨(List.mem_filter.mp hcm).1,
        by rw [← phaseViewPred_eq_coursePred]; exact hcp⟩

/-- C5: phase grouping maps each phase number with at least one course to the
title of the first such course and the in-order list of exactly the catalog's
courses of that phase; phases with no course are absent; every course occurs
in its own phase's group with its full catalog multiplicity and in no other
group. -/
theorem phase_grouping_correct (cs : List Course) (p : ℤ) :
    (∀ g, getCoursesByPhase cs p = some g →
        g.courses = cs.filter (fun c => decide (c.phase = p))
        ∧ g.courses ≠ []
        ∧ (∀ c, c ∈ g.courses → c.phase = p)
        ∧ (∃ c0, (cs.filter (fun c => decide (c.phase = p))).head? = some c0
            ∧ g.title = c0.phase_title))
    ∧ (getCoursesByPhase cs p = none ↔ ∀ c ∈ cs, c.phase ≠ p)
    ∧ (∀ c, c ∈ cs →
        ∃ g, getCoursesByPhase cs c.phase = some g
          ∧ g.courses.count c = cs.count c ∧ 0 < g.courses.count c)
    ∧ (∀ g c, getCoursesByPhase cs p = some g → c.phase ≠ p →
        c ∉ g.courses) := by
  have hchar := getCoursesByPhase_eq cs p
  refine ⟨fun g hg => ?_, ?_, fun c hc => ?_, fun g c hg hcp => ?_⟩
  · rw [hg] at hchar
    rcases hfl : cs.filter (fun c => decide (c.phase = p)) with _ | ⟨c0, rest⟩
    · rw [hfl] at hchar
      cases hchar
    · rw [hfl] at hchar
      have hgc : g = ⟨c0.phase_title, c0 :: rest⟩ := by
        cases hchar
        rfl
      subst hgc
      refine ⟨hfl.symm, by simp, fun c hcm => ?_, c0, by rw [hfl]; rfl, rfl⟩
      rw [← hfl] at hcm
      have := (List.mem_filter.mp hcm).2
      simpa using this
  · constructor
    · intro hnone c hc hcp
      have hcf : c ∈ cs.filter (fun x => decide (x.phase = p)) :=
        List.mem_filter.mpr ⟨hc, by simpa using hcp⟩
      rcases hfl : cs.filter (fun x => decide (x.phase = p)) with _ | ⟨c0, rest⟩
      · rw [hfl] at hcf
        cases hcf
      · rw [hfl, hnone] at hchar
        cases hchar
    · intro hall
      rcases hfl : cs.filter (fun x => decide (x.phase = p)) with _ | ⟨c0, rest⟩
      · rw [hfl] at hchar
        exact hchar
      · exfalso
        have hc0 : c0 ∈ cs.filter (fun x => decide (x.phase = p)) := by
          rw [hfl]
          exact List.mem_cons_self _ _
        rcases List.mem_filter.mp hc0 with ⟨hm, hp0⟩
        exact hall c0 hm (by simpa using hp0)
  · have hchar' := getCoursesByPhase_eq cs c.phase
    have hcf : c ∈ cs.filter (fun x => decide (x.phase = c.phase)) :=
      List.mem_filter.mpr ⟨hc, by simp⟩
    rcases hfl : cs.filter (fun x => decide (x.phase = c.phase)) with _ | ⟨c0, rest⟩
    · rw [hfl] at hcf
      cases hcf
    · rw [hfl] at hchar'
      refine ⟨⟨c0.phase_title, c0 :: rest⟩, hchar', ?_, ?_⟩
      · have : (c0 :: rest).count c
            = (cs.filter (fun x => decide (x.phase = c.phase))).count c := by
          rw [hfl]
        rw [this, List.count_filter]
        simp
      · rw [hfl] at hcf
        exact List.count_pos_iff.mpr hcf
  · rw [hg] at hchar
    rcases hfl : cs.filter (fun x => decide (x.phase = p)) with _ | ⟨c0, rest⟩
    · rw [hfl] at hchar
      cases hchar
    · rw [hfl] at hchar
      have hgc : g = ⟨c0.phase_title, c0 :: rest⟩ := by
        cases hchar
        rfl
      subst hgc
      intro hcm
      have : c ∈ cs.filter (fun x => decide (x.phase = p)) := by
        rw [hfl]
        exact hcm
      have := (List.mem_filter.mp this).2
      simp at this
      exact hcp this

/-- Witness for C5 on a three-course catalog with phases 1, 2, 1. -/
theorem phase_grouping_correct_witness :
    getCoursesByPhase
        [⟨"a", "A", 1, "P1", Status.notStarted, 0, CoursePriority.must⟩,
          ⟨"b", "B", 2, "P2", Status.inProgress, 50, CoursePriority.optional⟩,
          ⟨"c", "C", 1, "P1", Status.completed, 100, CoursePriority.must⟩] 3
      = none
    ∧ (⟨"P1", [⟨"a", "A", 1, "P1", Status.notStarted, 0, CoursePriority.must⟩,
          ⟨"c", "C", 1, "P1", Status.completed, 100, CoursePriority.must⟩]⟩
        : PhaseGroup).courses
      = List.filter (fun c => decide (c.phase = 1))
          [⟨"a", "A", 1, "P1", Status.notStarted, 0, CoursePriority.must⟩,
            ⟨"b", "B", 2, "P2", Status.inProgress, 50, CoursePriority.optional⟩,
            ⟨"c", "C", 1, "P1", Status.completed, 100, CoursePriority.must⟩] := by
  constructor
  · exact (phase_grouping_correct
      [⟨"a", "A", 1, "P1", Status.notStarted, 0, CoursePriority.must⟩,
        ⟨"b", "B", 2, "P2", Status.inProgress, 50, CoursePriority.optional⟩,
        ⟨"c", "C", 1, "P1", Status.completed, 100, CoursePriority.must⟩]
      3).2.1.mpr (by decide)
  · exact ((phase_grouping_correct
      [⟨"a", "A", 1, "P1", Status.notStarted, 0, CoursePriority.must⟩,
        ⟨"b", "B", 2, "P2", Status.inProgress, 50, CoursePriority.optional⟩,
        ⟨"c", "C", 1, "P1", Status.completed, 100, CoursePriority.must⟩]
      1).1 _ (by decide)).1

/-- C9 (amended): on a backend failure, daily-log submit and planned-session
add show a blocking alert, while course-progress update and planned-session
delete only log to the developer console with no user-facing notification;
for all four mutations, the failure path leaves the locally held state
unchanged (no optimistic update). -/
theorem mutation_failure_effects :
    ((dailyLogSubmitRun Outcome.fail).alerts = ["ERROR SAVING LOG"]
      ∧ (addSessionRun Outcome.fail).alerts = ["ERROR PLANNING SESSION"])
    ∧ ((updateCourseProgressRun Outcome.fail).alerts = []
      ∧ (updateCourseProgressRun Outcome.fail).consoleError = true
      ∧ (deleteSessionRun true Outcome.fail).alerts = []
      ∧ (deleteSessionRun true Outcome.fail).consoleError = true)
    ∧ (stateUnchanged (updateCourseProgressRun Outcome.fail)
      ∧ stateUnchanged (dailyLogSubmitRun Outcome.fail)
      ∧ stateUnchanged (addSessionRun Outcome.fail)
      ∧ (∀ confirmed, stateUnchanged (deleteSessionRun confirmed Outcome.fail))) := by
  refine ⟨⟨rfl, rfl⟩, ⟨rfl, rfl, rfl, rfl⟩, ⟨rfl, rfl⟩, ⟨rfl, rfl⟩, ⟨rfl, rfl⟩, ?_⟩
  intro confirmed
  cases confirmed <;> exact ⟨rfl, rfl⟩

/-! ### Calendar grid lemmas -/

theorem find_log_by_date (logs : List DailyLog) (ds : String)
    (hnd : (logs.map DailyLog.date).Nodup) (l : DailyLog) :
    logs.find? (fun x => decide (x.date = ds)) = some l ↔
      l ∈ logs ∧ l.date = ds := by
  induction logs with
  | nil => simp
  | cons hd t ih =>
      rw [List.map_cons, List.nodup_cons] at hnd
      by_cases hds : hd.date = ds
      · rw [List.find?_cons_of_pos _ (by simpa using hds)]
        constructor
        · intro hsome
          cases hsome
          exact ⟨List.mem_cons_self _ _, hds⟩
        · rintro ⟨hm, hld⟩
          rcases List.mem_cons.mp hm with rfl | hmt
          · rfl
          · exfalso
            apply hnd.1
            have : l.date ∈ t.map DailyLog.date :=
              List.mem_map_of_mem DailyLog.date hmt
            rwa [hld, ← hds] at this
      · rw [List.find?_cons_of_neg _ (by simpa using hds)]
        rw [ih hnd.2]
        constructor
        · rintro ⟨hmt, hld⟩
          exact ⟨List.mem_cons_of_mem _ hmt, hld⟩
        · rintro ⟨hm, hld⟩
          rcases List.mem_cons.mp hm with rfl | hmt
          · exact absurd hld hds
          · exact ⟨hmt, hld⟩

/-- C2: the grid for a year and zero-based month consists of exactly
`startingDayOfWeek` leading blanks followed by exactly `daysInMonth` day
cells numbered 1..N and nothing after them; each day cell is keyed by the
zero-padded date string and carries the at-most-one daily log (unique by the
date-distinctness invariant) and all planned sessions matching that string. -/
theorem calendar_grid_correct (y m : ℕ) (logs : List DailyLog)
    (sessions : List PlannedSession) (hm : m < 12)
    (hnd : (logs.map DailyLog.date).Nodup) :
    getDaysInMonth y m = (daysInMonth y m, startingDayOfWeek y m)
    ∧ (calendarGrid y m logs sessions).length
        = startingDayOfWeek y m + daysInMonth y m
    ∧ (∀ j, j < startingDayOfWeek y m →
        (calendarGrid y m logs sessions)[j]? = some CalendarCell.blank)
    ∧ (∀ i, i < daysInMonth y m →
        (calendarGrid y m logs sessions)[startingDayOfWeek y m + i]?
          = some (CalendarCell.day (i + 1) (dateStr y m (i + 1))
              (logs.find? (fun l => decide (l.date = dateStr y m (i + 1))))
              (sessions.filter
                (fun p => decide (p.planned_date = dateStr y m (i + 1))))))
    ∧ (∀ i l, logs.find? (fun x => decide (x.date = dateStr y m (i + 1)))
          = some l ↔ l ∈ logs ∧ l.date = dateStr y m (i + 1))
    ∧ (∀ i p, p ∈ sessions.filter
          (fun q => decide (q.planned_date = dateStr y m (i + 1)))
        ↔ p ∈ sessions ∧ p.planned_date = dateStr y m (i + 1))
    ∧ 28 ≤ daysInMonth y m ∧ startingDayOfWeek y m < 7 := by
  refine ⟨rfl, ?_, fun j hj => ?_, fun i hi => ?_,
    fun i l => find_log_by_date logs _ hnd l, fun i p => by simp,
    ?_, Nat.mod_lt _ (by omega)⟩
  · simp [calendarGrid]
  · rw [calendarGrid, List.getElem?_append,
      if_pos (by simpa using hj)]
    simp [List.getElem?_replicate, hj]
  · rw [calendarGrid, List.getElem?_append_right (by simp),
      List.getElem?_map]
    simp only [List.length_replicate, Nat.add_sub_cancel_left]
    rw [List.getElem?_range hi]
    rfl
  · unfold daysInMonth
    rcases Nat.lt_or_ge m 1 with h1 | h1 <;>
      by_cases h2 : m = 1 <;>
        simp [h2] <;>
          first
          | (cases isLeapYear y <;> simp)
          | (by_cases h3 : m = 3 ∨ m = 5 ∨ m = 8 ∨ m = 10 <;> simp [h3])

/-- Witness for C2 at October 2025 (31 days, starting on a Wednesday, the
boundary example of spec §8) together with decisively evaluated leap-year
anchors for the embedded calendar arithmetic. -/
theorem calendar_grid_correct_witness :
    ((9 : ℕ) < 12 ∧ (([] : List DailyLog).map DailyLog.date).Nodup)
    ∧ (calendarGrid 2025 9 [] []).length
        = startingDayOfWeek 2025 9 + daysInMonth 2025 9
    ∧ daysInMonth 2025 9 = 31 ∧ startingDayOfWeek 2025 9 = 3
    ∧ daysInMonth 2024 1 = 29 ∧ daysInMonth 2025 1 = 28
    ∧ daysInMonth 2000 1 = 29 ∧ daysInMonth 1900 1 = 28 :=
  ⟨⟨by decide, by decide⟩,
    (calendar_grid_correct 2025 9 [] [] (by decide) (by decide)).2.1,
    by decide, by decide, by decide, by decide, by decide, by decide⟩

/-! ### Streak lemmas -/

theorem streakFrom_le (logs : Finset ℤ) (fuel : ℕ) (d : ℤ) :
    streakFrom logs fuel d ≤ fuel := by
  induction fuel generalizing d with
  | zero => simp [streakFrom]
  | succ n ih =>
      rw [streakFrom]
      by_cases hd : d ∈ logs
      · rw [if_pos hd]
        exact Nat.succ_le_succ (ih (d - 1))
      · rw [if_neg hd]
        exact Nat.zero_le _

theorem streakFrom_mem (logs : Finset ℤ) (fuel : ℕ) (d : ℤ) :
    ∀ i : ℕ, i < streakFrom logs fuel d → d - (i : ℤ) ∈ logs := by
  induction fuel generalizing d with
  | zero =>
      intro i hi
      simp [streakFrom] at hi
  | succ n ih =>
      intro i hi
      rw [streakFrom] at hi
      by_cases hd : d ∈ logs
      · rw [if_pos hd] at hi
        cases i with
        | zero => simpa using hd
        | succ j =>
            have hj : j < streakFrom logs n (d - 1) :=
              Nat.lt_of_succ_lt_succ hi
            have hmem := ih (d - 1) j hj
            have heq : d - ((j + 1 : ℕ) : ℤ) = (d - 1) - (j : ℤ) := by
              push_cast
              ring
            rw [heq]
            exact hmem
      · rw [if_neg hd] at hi
        exact absurd hi (Nat.not_lt_zero _)

theorem streakFrom_gap (logs : Finset ℤ) (fuel : ℕ) (d : ℤ)
    (h : streakFrom logs fuel d < fuel) :
    d - (streakFrom logs fuel d : ℤ) ∉ logs := by
  induction fuel generalizing d with
  | zero => exact absurd h (Nat.not_lt_zero _)
  | succ n ih =>
      by_cases hd : d ∈ logs
      · rw [streakFrom, if_pos hd] at h ⊢
        have hlt : streakFrom logs n (d - 1) < n := Nat.lt_of_succ_lt_succ h
        have hgap := ih (d - 1) hlt
        have heq : d - ((streakFrom logs n (d - 1) + 1 : ℕ) : ℤ)
            = (d - 1) - (streakFrom logs n (d - 1) : ℤ) := by
          push_cast
          ring
        rw [heq]
        exact hgap
      · rw [streakFrom, if_neg hd]
        simpa using hd

theorem streakFrom_gap_full (logs : Finset ℤ) (d : ℤ) :
    d - (streakFrom logs logs.card d : ℤ) ∉ logs := by
  rcases lt_or_eq_of_le (streakFrom_le logs logs.card d) with hlt | heq
  · exact streakFrom_gap logs logs.card d hlt
  · intro hmem
    rw [heq] at hmem
    have hinj : Function.Injective (fun i : ℕ => d - (i : ℤ)) := by
      intro a b hab
      simp only at hab
      omega
    have hsub : (Finset.range logs.card).image (fun i : ℕ => d - (i : ℤ))
        ⊆ logs := by
      intro x hx
      rcases Finset.mem_image.mp hx with ⟨i, hi, rfl⟩
      exact streakFrom_mem logs logs.card d i
        (by rw [heq]; exact Finset.mem_range.mp hi)
    have hcard : ((Finset.range logs.card).image
        (fun i : ℕ => d - (i : ℤ))).card = logs.card := by
      rw [Finset.card_image_of_injective _ hinj, Finset.card_range]
    have hEq : (Finset.range logs.card).image (fun i : ℕ => d - (i : ℤ))
        = logs :=
      Finset.eq_of_subset_of_card_le hsub (by omega)
    rw [← hEq] at hmem
    rcases Finset.mem_image.mp hmem with ⟨i, hi, hix⟩
    have hin : i < logs.card := Finset.mem_range.mp hi
    omega

theorem streakFrom_pos (logs : Finset ℤ) (k : ℕ) (d : ℤ) (hd : d ∈ logs) :
    0 < streakFrom logs (k + 1) d := by
  rw [streakFrom, if_pos hd]
  exact Nat.succ_pos _

theorem run_length_unique (logs : Finset ℤ) (m : ℤ) (a b : ℕ)
    (ha1 : ∀ i : ℕ, i < a → m - (i : ℤ) ∈ logs) (ha2 : m - (a : ℤ) ∉ logs)
    (hb1 : ∀ i : ℕ, i < b → m - (i : ℤ) ∈ logs) (hb2 : m - (b : ℤ) ∉ logs) :
    a = b := by
  rcases lt_trichotomy a b with h | h | h
  · exact absurd (hb1 a h) ha2
  · exact h
  · exact absurd (ha1 b h) hb2

/-- C1 (spec-modelled): for a nonempty set of distinct logged dates whose
most recent day is at most one day before today, the streak is positive and
is exactly the length of the unbroken run of consecutive logged days ending
at the most recent logged day (every day in the run is logged and the day
before the run is not); the streak is 0 for the empty set and whenever the
most recent logged day is more than one day in the past; and logs on
exactly today, yesterday and the day before give streak 3. -/
theorem current_streak_correct (logs : Finset ℤ) (today : ℤ)
    (h : logs.Nonempty) :
    currentStreak ∅ today = 0
    ∧ (today - logs.max' h ≤ 1 →
        0 < currentStreak logs today
        ∧ (∀ i : ℕ, i < currentStreak logs today →
            logs.max' h - (i : ℤ) ∈ logs)
        ∧ logs.max' h - (currentStreak logs today : ℤ) ∉ logs)
    ∧ (1 < today - logs.max' h → currentStreak logs today = 0)
    ∧ (today ∈ logs → today - 1 ∈ logs → today - 2 ∈ logs →
        logs.card = 3 → currentStreak logs today = 3) := by
  refine ⟨by simp [currentStreak], fun hrec => ?_, fun hfar => ?_,
    fun h0 h1 h2 hcard => ?_⟩
  · have hval : currentStreak logs today
        = streakFrom logs logs.card (logs.max' h) := by
      rw [currentStreak, dif_pos h, if_pos hrec]
    refine ⟨?_, fun i hi => ?_, ?_⟩
    · rcases Nat.exists_eq_succ_of_ne_zero
        (Nat.pos_iff_ne_zero.mp (Finset.card_pos.mpr h)) with ⟨k, hk⟩
      rw [hval, hk]
      exact streakFrom_pos logs k _ (Finset.max'_mem logs h)
    · rw [hval] at hi
      exact streakFrom_mem logs logs.card (logs.max' h) i hi
    · rw [hval]
      exact streakFrom_gap_full logs (logs.max' h)
  · rw [currentStreak, dif_pos h, if_neg (by omega)]
  · have hsub : insert today (insert (today - 1) ({today - 2} : Finset ℤ))
        ⊆ logs := by
      intro x hx
      simp only [Finset.mem_insert, Finset.mem_singleton] at hx
      rcases hx with rfl | rfl | rfl
      · exact h0
      · exact h1
      · exact h2
    have hScard : (insert today (insert (today - 1)
        ({today - 2} : Finset ℤ))).card = 3 := by
      rw [Finset.card_insert_of_not_mem (by
          simp only [Finset.mem_insert, Finset.mem_singleton]
          omega),
        Finset.card_insert_of_not_mem (by
          simp only [Finset.mem_singleton]
          omega),
        Finset.card_singleton]
    have hS : insert today (insert (today - 1) ({today - 2} : Finset ℤ))
        = logs :=
      Finset.eq_of_subset_of_card_le hsub (by omega)
    have hmax : logs.max' h = today := by
      apply le_antisymm
      · apply Finset.max'_le
        intro x hx
        rw [← hS] at hx
        simp only [Finset.mem_insert, Finset.mem_singleton] at hx
        rcases hx with rfl | rfl | rfl <;> omega
      · exact Finset.le_max' logs today h0
    have hval : currentStreak logs today
        = streakFrom logs logs.card today := by
      rw [currentStreak, dif_pos h, hmax, if_pos (by omega)]
    have ha1 : ∀ i : ℕ, i < currentStreak logs today →
        today - (i : ℤ) ∈ logs := by
      intro i hi
      rw [hval] at hi
      exact streakFrom_mem logs logs.card today i hi
    have ha2 : today - ((currentStreak logs today : ℕ) : ℤ) ∉ logs := by
      rw [hval]
      exact streakFrom_gap_full logs today
    have hb1 : ∀ i : ℕ, i < 3 → today - (i : ℤ) ∈ logs := by
      intro i hi
      have hcases : i = 0 ∨ i = 1 ∨ i = 2 := by omega
      rcases hcases with rfl | rfl | rfl
      · simpa using h0
      · simpa using h1
      · simpa using h2
    have hb2 : today - ((3 : ℕ) : ℤ) ∉ logs := by
      rw [← hS]
      simp only [Finset.mem_insert, Finset.mem_singleton]
      push_cast
      omega
    exact run_length_unique logs today (currentStreak logs today) 3
      ha1 ha2 hb1 hb2

/-- Witness for C1: logs on day numbers 0, -1 and -2 with today = 0 give a
streak of 3. -/
theorem current_streak_correct_witness :
    ({0, -1, -2} : Finset ℤ).Nonempty
    ∧ currentStreak ({0, -1, -2} : Finset ℤ) 0 = 3 :=
  ⟨Finset.insert_nonempty _ _,
    (current_streak_correct ({0, -1, -2} : Finset ℤ) 0
        (Finset.insert_nonempty _ _)).2.2.2
      (by decide) (by decide) (by decide) (by decide)⟩

end WebDevTracker
